import Mathlib

/-!
# Verification of the Konva text-editor component

Shallow embedding of the repository's single React component (present in two
near-duplicate variants: `src/src/App.tsx` and `src/unnamed/part_000`).
The component state (`useState` hooks) becomes an explicit record, and every
event handler becomes a pure state-transition function.  External inputs that
handlers read from the rendering surface or the DOM (event target id, final
drag position, scale factors, the overlay input's current value, the timestamp
used as a fresh id) become parameters of the corresponding operation.

JavaScript numbers are modelled as `Rat`; `JSON.parse(JSON.stringify x)`
deep-cloning is the identity on this data shape, and the `isEqual`
JSON-stringify comparison is structural equality.
-/

namespace KonvaTextEditor

/-- The `TextNode` interface of the source.  `width`/`height` are optional
(absent until the first transform end), `isEditing` defaults to `false` at
every creation site in the source. -/
structure TextNode where
  id : String
  x : Rat
  y : Rat
  text : String
  fontSize : Rat
  fontColor : String
  width : Option Rat
  height : Option Rat
  isEditing : Bool
deriving DecidableEq, Repr

/-- The component's `useState` hooks plus the `isDragging` ref of the
`part_000` variant.  `historyIndex` starts at `-1`, hence `Int`. -/
structure EditorState where
  textNodes : List TextNode
  selectedId : Option String
  editText : String
  currentColor : String
  currentFontSize : Rat
  history : List (List TextNode)
  historyIndex : Int
  isDragging : Bool
deriving DecidableEq, Repr

/-- The ids of a node list. -/
def ids (l : List TextNode) : List String := l.map TextNode.id

/-- Number of nodes whose `isEditing` flag is set. -/
def countEditing (l : List TextNode) : Nat := l.countP (fun n => n.isEditing)

/-- The history-recording `useEffect` (`[textNodes]` dependency): if the cursor
is at the initial `-1` position or the entry at the cursor differs structurally
from the live node list, truncate the log after the cursor and append a deep
copy of the live list, moving the cursor to the new tail. -/
def recordStep (s : EditorState) : EditorState :=
  if s.historyIndex = -1 ∨ s.history.get? s.historyIndex.toNat ≠ some s.textNodes then
    { s with
      history := s.history.take (s.historyIndex + 1).toNat ++ [s.textNodes],
      historyIndex :=
        (((s.history.take (s.historyIndex + 1).toNat ++
            [s.textNodes]).length : Nat) : Int) - 1 }
  else s

/-- `handleStageClick`, branch where the click target is the stage itself or
an unnamed node: clears selection.  In `part_000` an in-flight drag only
resets the drag flag. -/
def handleStageClickEmpty (s : EditorState) : EditorState :=
  if s.isDragging then { s with isDragging := false }
  else { s with selectedId := none }

/-- `handleStageClick`, branch where the click target is a `"text-node"`:
selects it unconditionally and, when the id is found in the list, pulls its
style into the global current-style fields. -/
def handleStageClickNode (id : String) (s : EditorState) : EditorState :=
  if s.isDragging then { s with isDragging := false }
  else
    match s.textNodes.find? (fun n => n.id == id) with
    | some node =>
        { s with selectedId := some id, currentColor := node.fontColor,
                 currentFontSize := node.fontSize }
    | none => { s with selectedId := some id }

/-- `handleDragStart` (`part_000` only): sets the drag-suppression flag. -/
def handleDragStart (s : EditorState) : EditorState :=
  { s with isDragging := true }

/-- `handleDragEnd`: writes the node's final stage position into the object
with the matching id; `nx`/`ny` are `e.target.x()`/`e.target.y()`. -/
def handleDragEnd (id : String) (nx ny : Rat) (s : EditorState) : EditorState :=
  { s with
    textNodes := s.textNodes.map (fun n =>
      if n.id = id then { n with x := nx, y := ny } else n),
    isDragging := false }

/-- `handleTransform` (live resize): recomputes the candidate font size
`max 5 (fontSize * scaleX)` and mirrors it into `currentFontSize` when the
transformed node is the selected one.  Only scene-graph attributes are touched
otherwise. -/
def handleTransform (id : String) (scaleX : Rat) (s : EditorState) : EditorState :=
  match s.textNodes.find? (fun n => n.id == id) with
  | none => s
  | some node =>
      if s.selectedId = some id then
        { s with currentFontSize := max 5 (node.fontSize * scaleX) }
      else s

/-- `handleTransformEnd`: commits position, clamped font size
`max 5 (fontSize * scaleX)` and the scaled bounding box; `w`/`h` are
`e.target.width()`/`e.target.height()`. -/
def handleTransformEnd (id : String) (nx ny scaleX scaleY w h : Rat)
    (s : EditorState) : EditorState :=
  match s.textNodes.find? (fun n => n.id == id) with
  | none => s
  | some _ =>
      { s with
        textNodes := s.textNodes.map (fun n =>
          if n.id = id then
            { n with x := nx, y := ny, fontSize := max 5 (n.fontSize * scaleX),
                     width := some (w * scaleX), height := some (h * scaleY) }
          else n) }

/-- `handleTextDoubleClick` (`part_000` variant): suppressed while dragging;
stages the node's text into the edit buffer, selects it, mirrors its style,
and sets `isEditing := true` on the target and `false` on every other node. -/
def handleTextDoubleClick (id : String) (s : EditorState) : EditorState :=
  if s.isDragging then s
  else
    match s.textNodes.find? (fun n => n.id == id) with
    | none => s
    | some node =>
        { s with editText := node.text, selectedId := some id,
                 currentColor := node.fontColor, currentFontSize := node.fontSize,
                 textNodes := s.textNodes.map (fun n =>
                   if n.id = id then { n with isEditing := true }
                   else { n with isEditing := false }) }

/-- `handleInputBlur` (`part_000` variant), also invoked on Enter: no-op when
nothing is selected; otherwise commits
`textInputRef.current?.value || editText` (JavaScript `||`: the staged buffer
is used when the ref is null or its value is the empty string) together with
the global current style into the selected node and clears its editing flag.
`v` is the overlay input's DOM value (`none` when the ref is null). -/
def handleInputBlur (v : Option String) (s : EditorState) : EditorState :=
  match s.selectedId with
  | none => s
  | some sel =>
      let updatedText :=
        match v with
        | some str => if str = "" then s.editText else str
        | none => s.editText
      { s with
        textNodes := s.textNodes.map (fun n =>
          if n.id = sel then
            { n with text := updatedText, fontColor := s.currentColor,
                     fontSize := s.currentFontSize, isEditing := false }
          else n),
        editText := updatedText }

/-- `handleFontSizeChange` (wired to the side panel's range input with
`min="10" max="72"`): stores the new size in the global field and, when an
object is selected, writes it unclamped into that object. -/
def handleFontSizeChange (size : Rat) (s : EditorState) : EditorState :=
  match s.selectedId with
  | none => { s with currentFontSize := size }
  | some sel =>
      { s with currentFontSize := size,
               textNodes := s.textNodes.map (fun n =>
                 if n.id = sel then { n with fontSize := size } else n) }

/-- `handleColorChange`: same shape as the size handler, for `fontColor`. -/
def handleColorChange (c : String) (s : EditorState) : EditorState :=
  match s.selectedId with
  | none => { s with currentColor := c }
  | some sel =>
      { s with currentColor := c,
               textNodes := s.textNodes.map (fun n =>
                 if n.id = sel then { n with fontColor := c } else n) }

/-- `addTextNode`: appends a node at `(50, 50)` with placeholder text and the
current global style, and selects it.  The source uses
`Date.now().toString()` as the id; the timestamp is an external input, so the
id is a parameter here. -/
def addTextNode (id : String) (s : EditorState) : EditorState :=
  { s with
    textNodes := s.textNodes ++
      [{ id := id, x := 50, y := 50, text := "Double click to edit",
         fontSize := s.currentFontSize, fontColor := s.currentColor,
         width := none, height := none, isEditing := false }],
    selectedId := some id }

/-- `undo` (`part_000` variant): guarded by `historyIndex > 0`; installs a deep
copy of the previous history entry and clears the selection.  (An out-of-range
index cannot occur under the guard in reachable states; the `getD` default
stands for the crash JavaScript would produce there.) -/
def undo (s : EditorState) : EditorState :=
  if 0 < s.historyIndex then
    { s with historyIndex := s.historyIndex - 1,
             textNodes := s.history.getD (s.historyIndex - 1).toNat [],
             selectedId := none }
  else s

/-- `redo` (`part_000` variant): guarded by `historyIndex < history.length - 1`;
installs a deep copy of the next history entry and clears the selection. -/
def redo (s : EditorState) : EditorState :=
  if s.historyIndex < (s.history.length : Int) - 1 then
    { s with historyIndex := s.historyIndex + 1,
             textNodes := s.history.getD (s.historyIndex + 1).toNat [],
             selectedId := none }
  else s

/-- `deleteSelected`: removes the selected node and clears the selection;
no-op when nothing is selected. -/
def deleteSelected (s : EditorState) : EditorState :=
  match s.selectedId with
  | none => s
  | some sel =>
      { s with textNodes := s.textNodes.filter (fun n => !(n.id == sel)),
               selectedId := none }

/-- One user-level operation; external inputs read by the handler are carried
in the constructor. -/
inductive Op where
  | clickEmpty
  | clickNode (id : String)
  | dragStart
  | dragEnd (id : String) (nx ny : Rat)
  | transform (id : String) (scaleX : Rat)
  | transformEnd (id : String) (nx ny scaleX scaleY w h : Rat)
  | dblClick (id : String)
  | blur (v : Option String)
  | fontSize (size : Rat)
  | color (c : String)
  | add (id : String)
  | undoOp
  | redoOp
  | deleteOp

/-- The `part_000` handler for one operation, before the recording effect. -/
def opFn (op : Op) (s : EditorState) : EditorState :=
  match op with
  | .clickEmpty => handleStageClickEmpty s
  | .clickNode id => handleStageClickNode id s
  | .dragStart => handleDragStart s
  | .dragEnd id nx ny => handleDragEnd id nx ny s
  | .transform id scaleX => handleTransform id scaleX s
  | .transformEnd id nx ny sx sy w h => handleTransformEnd id nx ny sx sy w h s
  | .dblClick id => handleTextDoubleClick id s
  | .blur v => handleInputBlur v s
  | .fontSize size => handleFontSizeChange size s
  | .color c => handleColorChange c s
  | .add id => addTextNode id s
  | .undoOp => undo s
  | .redoOp => redo s
  | .deleteOp => deleteSelected s

/-- One settled operation of the `part_000` variant: the handler runs to
completion and the history-recording effect fires on the result. -/
def applyOp (op : Op) (s : EditorState) : EditorState :=
  recordStep (opFn op s)

/-- Running a sequence of settled operations. -/
def run (s : EditorState) (ops : List Op) : EditorState :=
  ops.foldl (fun t op => applyOp op t) s

/-- The `useState` initial values: empty document, no selection, black colour,
size 20, empty history with cursor `-1`. -/
def initialState : EditorState :=
  { textNodes := [], selectedId := none, editText := "",
    currentColor := "#000000", currentFontSize := 20,
    history := [], historyIndex := -1, isDragging := false }

/-- The state after the mount effect: `addTextNode()` runs once and the
recording effect appends the first snapshot. -/
def init (id0 : String) : EditorState :=
  applyOp (.add id0) initialState

/-! ## The `App.tsx` variant

`src/src/App.tsx` differs from `part_000` in four behavioural points: it has
no drag-suppression flag, its double-click handler marks only the target as
editing (`updateTextNode(id, { isEditing: true })`), its blur handler commits
the controlled `editText` state directly, and `undo`/`redo` do not clear the
selection.  Handlers that coincide state-wise are shared above. -/

/-- `handleStageClick` of `App.tsx`, background branch (no drag guard). -/
def handleStageClickEmptyApp (s : EditorState) : EditorState :=
  { s with selectedId := none }

/-- `handleStageClick` of `App.tsx`, text-node branch (no drag guard). -/
def handleStageClickNodeApp (id : String) (s : EditorState) : EditorState :=
  match s.textNodes.find? (fun n => n.id == id) with
  | some node =>
      { s with selectedId := some id, currentColor := node.fontColor,
               currentFontSize := node.fontSize }
  | none => { s with selectedId := some id }

/-- `handleDragEnd` of `App.tsx` (no drag flag to clear). -/
def handleDragEndApp (id : String) (nx ny : Rat) (s : EditorState) : EditorState :=
  { s with
    textNodes := s.textNodes.map (fun n =>
      if n.id = id then { n with x := nx, y := ny } else n) }

/-- `handleTransformEnd` of `App.tsx` (no `find?` guard; the map alone). -/
def handleTransformEndApp (id : String) (nx ny scaleX scaleY w h : Rat)
    (s : EditorState) : EditorState :=
  { s with
    textNodes := s.textNodes.map (fun n =>
      if n.id = id then
        { n with x := nx, y := ny, fontSize := max 5 (n.fontSize * scaleX),
                 width := some (w * scaleX), height := some (h * scaleY) }
      else n) }

/-- `handleTextDoubleClick` of `App.tsx`: stages the text, selects and mirrors
the style exactly like `part_000`, but marks editing via
`updateTextNode(id, { isEditing: true })`, leaving every other node's flag
untouched. -/
def handleTextDoubleClickApp (id : String) (s : EditorState) : EditorState :=
  match s.textNodes.find? (fun n => n.id == id) with
  | none => s
  | some node =>
      { s with editText := node.text, selectedId := some id,
               currentColor := node.fontColor, currentFontSize := node.fontSize,
               textNodes := s.textNodes.map (fun n =>
                 if n.id = id then { n with isEditing := true } else n) }

/-- `handleInputBlur` of `App.tsx`: commits the controlled `editText` state
together with the global current style and clears the editing flag; no-op when
nothing is selected. -/
def handleInputBlurApp (s : EditorState) : EditorState :=
  match s.selectedId with
  | none => s
  | some sel =>
      { s with
        textNodes := s.textNodes.map (fun n =>
          if n.id = sel then
            { n with text := s.editText, fontColor := s.currentColor,
                     fontSize := s.currentFontSize, isEditing := false }
          else n) }

/-- `undo` of `App.tsx`: same guard and snapshot installation, but the
selection is left as it was. -/
def undoApp (s : EditorState) : EditorState :=
  if 0 < s.historyIndex then
    { s with historyIndex := s.historyIndex - 1,
             textNodes := s.history.getD (s.historyIndex - 1).toNat [] }
  else s

/-- `redo` of `App.tsx`: same guard, selection untouched. -/
def redoApp (s : EditorState) : EditorState :=
  if s.historyIndex < (s.history.length : Int) - 1 then
    { s with historyIndex := s.historyIndex + 1,
             textNodes := s.history.getD (s.historyIndex + 1).toNat [] }
  else s

/-- The `App.tsx` handler for one operation (`dragStart` has no handler
there). -/
def opFnApp (op : Op) (s : EditorState) : EditorState :=
  match op with
  | .clickEmpty => handleStageClickEmptyApp s
  | .clickNode id => handleStageClickNodeApp id s
  | .dragStart => s
  | .dragEnd id nx ny => handleDragEndApp id nx ny s
  | .transform id scaleX => handleTransform id scaleX s
  | .transformEnd id nx ny sx sy w h => handleTransformEndApp id nx ny sx sy w h s
  | .dblClick id => handleTextDoubleClickApp id s
  | .blur _ => handleInputBlurApp s
  | .fontSize size => handleFontSizeChange size s
  | .color c => handleColorChange c s
  | .add id => addTextNode id s
  | .undoOp => undoApp s
  | .redoOp => redoApp s
  | .deleteOp => deleteSelected s

/-- One settled operation of the `App.tsx` variant. -/
def applyOpApp (op : Op) (s : EditorState) : EditorState :=
  recordStep (opFnApp op s)

/-- Running a sequence of settled operations in the `App.tsx` variant.  Both
variants mount with the same `addTextNode()` effect, so `init` is shared. -/
def runApp (s : EditorState) (ops : List Op) : EditorState :=
  ops.foldl (fun t op => applyOpApp op t) s

/-! ## Trace legality

An operation's external inputs are not arbitrary: a click or double-click
event carries the id of a node of the rendering surface, which is rendered
from the live list, and the font-size control is a range input with
`min="10" max="72"`.  `legalOpB` captures exactly these two constraints. -/

/-- The external inputs an operation can actually carry, per the source's
wiring: clicked ids come from rendered nodes, slider values lie in 10..72. -/
def legalOpB (s : EditorState) : Op → Bool
  | .clickNode id => decide (id ∈ ids s.textNodes)
  | .dblClick id => decide (id ∈ ids s.textNodes)
  | .fontSize size => decide (10 ≤ size) && decide (size ≤ 72)
  | _ => true

/-- A trace is legal when every operation is legal in the state it fires in. -/
def legalTraceB (s : EditorState) : List Op → Bool
  | [] => true
  | op :: rest => legalOpB s op && legalTraceB (applyOp op s) rest

/-- Freshness of the timestamp ids: an `add` receives an id not currently in
the list (true whenever consecutive `Date.now()` calls land in distinct
milliseconds). -/
def freshOpB (s : EditorState) : Op → Bool
  | .add id => !(decide (id ∈ ids s.textNodes))
  | _ => true

/-- A trace whose `add` operations all receive fresh ids. -/
def freshTraceB (s : EditorState) : List Op → Bool
  | [] => true
  | op :: rest => freshOpB s op && freshTraceB (applyOp op s) rest

/-! ## Basic lemmas about the recording effect and runs -/

@[simp] theorem recordStep_textNodes (s : EditorState) :
    (recordStep s).textNodes = s.textNodes := by
  unfold recordStep; split <;> rfl

@[simp] theorem recordStep_selectedId (s : EditorState) :
    (recordStep s).selectedId = s.selectedId := by
  unfold recordStep; split <;> rfl

@[simp] theorem recordStep_editText (s : EditorState) :
    (recordStep s).editText = s.editText := by
  unfold recordStep; split <;> rfl

@[simp] theorem recordStep_currentColor (s : EditorState) :
    (recordStep s).currentColor = s.currentColor := by
  unfold recordStep; split <;> rfl

@[simp] theorem recordStep_currentFontSize (s : EditorState) :
    (recordStep s).currentFontSize = s.currentFontSize := by
  unfold recordStep; split <;> rfl

@[simp] theorem run_nil (s : EditorState) : run s [] = s := rfl

@[simp] theorem run_cons (s : EditorState) (op : Op) (ops : List Op) :
    run s (op :: ops) = run (applyOp op s) ops := rfl

@[simp] theorem runApp_nil (s : EditorState) : runApp s [] = s := rfl

@[simp] theorem runApp_cons (s : EditorState) (op : Op) (ops : List Op) :
    runApp s (op :: ops) = runApp (applyOpApp op s) ops := rfl

/-- The settled-state invariant of the history log: the cursor is in range and
points at an entry structurally equal to the live node list. -/
def recInv (s : EditorState) : Prop :=
  0 ≤ s.historyIndex ∧ s.historyIndex < (s.history.length : Int) ∧
    s.history.get? s.historyIndex.toNat = some s.textNodes

/-- After the recording effect fires on any state whose cursor is at least
`-1`, the settled-state invariant holds. -/
theorem recordStep_recInv (t : EditorState) (h : -1 ≤ t.historyIndex) :
    recInv (recordStep t) := by
  unfold recordStep
  split
  case isTrue hc =>
    refine ⟨?_, ?_, ?_⟩
    · simp only [List.length_append, List.length_singleton]
      omega
    · simp only [List.length_append, List.length_singleton]
      push_cast
      omega
    · have hlen : ((((t.history.take (t.historyIndex + 1).toNat ++
          [t.textNodes]).length : Nat) : Int) - 1).toNat
          = (t.history.take (t.historyIndex + 1).toNat).length := by
        simp only [List.length_append, List.length_singleton]
        omega
      simp only [hlen]
      exact List.get?_concat_length _ _
  case isFalse hc =>
    push_neg at hc
    obtain ⟨h1, h2⟩ := hc
    have h0 : 0 ≤ t.historyIndex := by omega
    refine ⟨h0, ?_, h2⟩
    have := List.get?_eq_some.mp h2
    obtain ⟨hlt, _⟩ := this
    omega

/-- On a settled state the recording effect is the identity. -/
theorem recordStep_settled (s : EditorState) (h : recInv s) : recordStep s = s := by
  obtain ⟨h0, _, hget⟩ := h
  unfold recordStep
  rw [if_neg]
  push_neg
  exact ⟨by omega, hget⟩

/-- No handler moves the history cursor below `0` (only `recordStep` ever
touches the log itself). -/
theorem opFn_historyIndex_nonneg (op : Op) (s : EditorState)
    (h : 0 ≤ s.historyIndex) : 0 ≤ (opFn op s).historyIndex := by
  cases op <;>
    simp only [opFn, handleStageClickEmpty, handleStageClickNode, handleDragStart,
      handleDragEnd, handleTransform, handleTransformEnd, handleTextDoubleClick,
      handleInputBlur, handleFontSizeChange, handleColorChange, addTextNode,
      undo, redo, deleteSelected] <;>
    (repeat' split) <;> (try dsimp only) <;> omega

theorem recInv_applyOp (op : Op) (s : EditorState) (h : recInv s) :
    recInv (applyOp op s) :=
  recordStep_recInv _ (by have := opFn_historyIndex_nonneg op s h.1; omega)

theorem recInv_init (id0 : String) : recInv (init id0) := by
  refine ⟨?_, ?_, ?_⟩ <;>
    simp [init, applyOp, opFn, addTextNode, initialState, recordStep]

theorem recInv_run (s : EditorState) (ops : List Op) (h : recInv s) :
    recInv (run s ops) := by
  induction ops generalizing s with
  | nil => exact h
  | cons op rest ih => exact ih _ (recInv_applyOp op s h)

/-- A settled `undo` step, written out: cursor decremented, the previous
entry installed, selection cleared, and the recording effect a no-op. -/
theorem applyOp_undo_eq (s : EditorState) (e : List TextNode)
    (h : 0 < s.historyIndex) (hlen : s.historyIndex < (s.history.length : Int))
    (he : s.history.get? (s.historyIndex - 1).toNat = some e) :
    applyOp .undoOp s =
      { s with historyIndex := s.historyIndex - 1, textNodes := e,
               selectedId := none } := by
  show recordStep (undo s) = _
  rw [undo, if_pos h]
  have hgd : s.history.getD (s.historyIndex - 1).toNat [] = e := by
    rw [List.getD_eq_get?, he]; rfl
  rw [hgd]
  refine recordStep_settled _ ⟨?_, ?_, he⟩
  · show 0 ≤ s.historyIndex - 1
    omega
  · show s.historyIndex - 1 < (s.history.length : Int)
    omega

/-- Claim C3 (round-trip law): on any settled state whose cursor is strictly past
position 0, `undo()` immediately followed by `redo()` restores the object
list, and also leaves the log and the cursor as they were. -/
theorem undo_redo_roundtrip (s : EditorState) (hrec : recInv s)
    (h : 0 < s.historyIndex) :
    (applyOp .redoOp (applyOp .undoOp s)).textNodes = s.textNodes ∧
    (applyOp .redoOp (applyOp .undoOp s)).history = s.history ∧
    (applyOp .redoOp (applyOp .undoOp s)).historyIndex = s.historyIndex := by
  obtain ⟨h0, hlen, hget⟩ := hrec
  have hlt1 : (s.historyIndex - 1).toNat < s.history.length := by omega
  obtain ⟨e, he⟩ : ∃ e, s.history.get? (s.historyIndex - 1).toNat = some e :=
    ⟨_, List.get?_eq_get hlt1⟩
  rw [applyOp_undo_eq s e h hlen he]
  have hr : applyOp .redoOp
      { s with historyIndex := s.historyIndex - 1, textNodes := e,
               selectedId := none } =
      { s with historyIndex := s.historyIndex, textNodes := s.textNodes,
               selectedId := none } := by
    show recordStep (redo _) = _
    rw [redo]
    dsimp only
    rw [if_pos (by omega : s.historyIndex - 1 < (s.history.length : Int) - 1)]
    have hstep : s.historyIndex - 1 + 1 = s.historyIndex := by omega
    have hgd : s.history.getD s.historyIndex.toNat [] = s.textNodes := by
      rw [List.getD_eq_get?, hget]; rfl
    rw [hstep, hgd]
    exact recordStep_settled _ ⟨h0, hlen, hget⟩
  rw [hr]
  exact ⟨rfl, rfl, rfl⟩

/-- Claim C4 (branch truncation): when the cursor sits strictly before the tail and
the live node list differs from the entry at the cursor, the recording effect
replaces everything after the cursor by the single new snapshot, advances the
cursor to the new tail, and `redo` on the result is a no-op. -/
theorem record_truncates (t : EditorState)
    (h0 : 0 ≤ t.historyIndex)
    (h1 : t.historyIndex + 1 < (t.history.length : Int))
    (h2 : t.history.get? t.historyIndex.toNat ≠ some t.textNodes) :
    (recordStep t).history
        = t.history.take (t.historyIndex + 1).toNat ++ [t.textNodes]
      ∧ (recordStep t).historyIndex = t.historyIndex + 1
      ∧ applyOp .redoOp (recordStep t) = recordStep t := by
  have hcond : t.historyIndex = -1 ∨
      t.history.get? t.historyIndex.toNat ≠ some t.textNodes := Or.inr h2
  have hrs : recordStep t =
      { t with history := t.history.take (t.historyIndex + 1).toNat ++ [t.textNodes],
               historyIndex :=
                 (((t.history.take (t.historyIndex + 1).toNat ++
                     [t.textNodes]).length : Nat) : Int) - 1 } := by
    unfold recordStep
    rw [if_pos hcond]
  have hlen : (((t.history.take (t.historyIndex + 1).toNat ++
      [t.textNodes]).length : Nat) : Int) = t.historyIndex + 2 := by
    simp only [List.length_append, List.length_take, List.length_singleton]
    push_cast
    omega
  refine ⟨by rw [hrs], by rw [hrs]; dsimp only; omega, ?_⟩
  have hredo : redo (recordStep t) = recordStep t := by
    rw [redo, if_neg]
    rw [hrs]
    dsimp only
    omega
  show recordStep (redo (recordStep t)) = recordStep t
  rw [hredo]
  exact recordStep_settled _ (recordStep_recInv t (by omega))

/-- Claim C9: on a settled state, `undo()` is the identity when the cursor is at
position 0 (or the log is empty, which a settled state excludes), and
`redo()` is the identity when the cursor is at the tail. -/
theorem undo_redo_noop_at_bounds (s : EditorState) (hrec : recInv s) :
    ((s.historyIndex = 0 ∨ s.history = []) → applyOp .undoOp s = s) ∧
    (s.historyIndex = (s.history.length : Int) - 1 → applyOp .redoOp s = s) := by
  obtain ⟨h0, hlen, hget⟩ := hrec
  constructor
  · intro h
    have hidx : s.historyIndex = 0 := by
      rcases h with h | h
      · exact h
      · rw [h] at hlen
        simp only [List.length_nil, Nat.cast_zero] at hlen
        omega
    show recordStep (undo s) = s
    rw [undo, if_neg (by omega)]
    exact recordStep_settled s ⟨h0, hlen, hget⟩
  · intro h
    show recordStep (redo s) = s
    rw [redo, if_neg (by omega)]
    exact recordStep_settled s ⟨h0, hlen, hget⟩

/-- Claim C6 (amended, `part_000` variant): whenever `undo` or `redo` actually
installs a historical snapshot, the selection is cleared. -/
theorem undo_redo_clear_selection (s : EditorState) :
    (0 < s.historyIndex → (applyOp .undoOp s).selectedId = none) ∧
    (s.historyIndex < (s.history.length : Int) - 1 →
      (applyOp .redoOp s).selectedId = none) := by
  constructor
  · intro h
    show (recordStep (undo s)).selectedId = none
    rw [recordStep_selectedId, undo, if_pos h]
  · intro h
    show (recordStep (redo s)).selectedId = none
    rw [recordStep_selectedId, redo, if_pos h]

/-! ## List helpers for the node-level invariants -/

/-- A map whose function preserves ids leaves the id list unchanged. -/
theorem ids_map_of_id_eq (l : List TextNode) (f : TextNode → TextNode)
    (hf : ∀ n, (f n).id = n.id) : ids (l.map f) = ids l := by
  unfold ids
  induction l with
  | nil => rfl
  | cons a t ih =>
    simp only [List.map_cons]
    rw [hf a, ih]

/-- A map whose function preserves the editing flag preserves the count. -/
theorem countEditing_map_eq (l : List TextNode) (f : TextNode → TextNode)
    (hf : ∀ n, (f n).isEditing = n.isEditing) :
    countEditing (l.map f) = countEditing l := by
  unfold countEditing
  induction l with
  | nil => rfl
  | cons a t ih =>
    simp only [List.map_cons, List.countP_cons]
    rw [hf a, ih]

/-- A map whose function only ever clears the editing flag does not increase
the count. -/
theorem countEditing_map_le (l : List TextNode) (f : TextNode → TextNode)
    (hf : ∀ n, (f n).isEditing = true → n.isEditing = true) :
    countEditing (l.map f) ≤ countEditing l := by
  unfold countEditing
  induction l with
  | nil => exact Nat.le_refl 0
  | cons a t ih =>
    simp only [List.map_cons, List.countP_cons]
    have hstep : (if (f a).isEditing = true then 1 else 0)
        ≤ (if a.isEditing = true then 1 else 0) := by
      by_cases hfa : (f a).isEditing = true
      · simp [hfa, hf a hfa]
      · simp [hfa]
    omega

/-- The double-click map of `part_000` leaves exactly the nodes carrying the
clicked id in editing state. -/
theorem countEditing_dblClick_map (l : List TextNode) (id : String) :
    countEditing (l.map (fun n =>
        if n.id = id then { n with isEditing := true }
        else { n with isEditing := false }))
      = l.countP (fun n => n.id == id) := by
  unfold countEditing
  induction l with
  | nil => rfl
  | cons a t ih =>
    simp only [List.map_cons, List.countP_cons, ih]
    by_cases ha : a.id = id
    · simp [ha]
    · simp [ha]

/-- With pairwise-distinct ids, at most one node carries any given id. -/
theorem countP_id_le_one (l : List TextNode) (id : String)
    (h : (ids l).Nodup) : l.countP (fun n => n.id == id) ≤ 1 := by
  induction l with
  | nil => simp
  | cons a t ih =>
    simp only [ids, List.map_cons, List.nodup_cons] at h
    obtain ⟨hnot, ht⟩ := h
    simp only [List.countP_cons]
    by_cases ha : a.id = id
    · have hz : t.countP (fun n => n.id == id) = 0 := by
        apply List.countP_eq_zero.mpr
        intro m hm hmq
        have hmid : m.id = id := by simpa using hmq
        exact hnot (by
          rw [ha, ← hmid]
          exact List.mem_map_of_mem TextNode.id hm)
      simp [ha, hz]
    · have := ih ht
      simpa [ha] using this

/-! ## The font-size invariant (C1) -/

/-- A list-level property that holds of the live list and of every history
entry survives the recording effect. -/
theorem recordStep_histAll (P : List TextNode → Prop) (t : EditorState)
    (h1 : P t.textNodes) (h2 : ∀ e ∈ t.history, P e) :
    ∀ e ∈ (recordStep t).history, P e := by
  unfold recordStep
  split
  · intro e he
    have he' : e ∈ t.history.take (t.historyIndex + 1).toNat ++ [t.textNodes] := he
    rcases List.mem_append.mp he' with he'' | he''
    · exact h2 e (List.take_subset _ _ he'')
    · rw [List.mem_singleton.mp he'']
      exact h1
  · exact h2

/-- A history entry installed by `undo`/`redo` satisfies any property that
all history entries satisfy (the out-of-range default `[]` satisfies any
property of the empty list). -/
theorem getD_hist (P : List TextNode → Prop) (s : EditorState) (k : Nat)
    (h2 : ∀ e ∈ s.history, P e) (hnil : P []) : P (s.history.getD k []) := by
  rcases hq : s.history.get? k with _ | e
  · rw [List.getD_eq_get?, hq]
    exact hnil
  · rw [List.getD_eq_get?, hq]
    exact h2 e (List.get?_mem hq)

/-- C1's inductive invariant: every live node, every node of every history
entry, and the global current size are at least 5. -/
def fsInv (s : EditorState) : Prop :=
  (∀ n ∈ s.textNodes, 5 ≤ n.fontSize) ∧ 5 ≤ s.currentFontSize ∧
    ∀ e ∈ s.history, ∀ n ∈ e, 5 ≤ n.fontSize

theorem fsInv_opFn (op : Op) (s : EditorState) (hleg : legalOpB s op = true)
    (h : fsInv s) : fsInv (opFn op s) := by
  obtain ⟨hn, hc, hh⟩ := h
  cases op with
  | clickEmpty =>
    simp only [opFn, handleStageClickEmpty]
    split <;> exact ⟨hn, hc, hh⟩
  | clickNode id =>
    simp only [opFn, handleStageClickNode]
    split
    · exact ⟨hn, hc, hh⟩
    · split
      next node hfind =>
        exact ⟨hn, hn node (List.mem_of_find?_eq_some hfind), hh⟩
      next => exact ⟨hn, hc, hh⟩
  | dragStart => exact ⟨hn, hc, hh⟩
  | dragEnd id nx ny =>
    refine ⟨?_, hc, hh⟩
    intro n hmem
    have hmem' : n ∈ s.textNodes.map (fun n =>
        if n.id = id then { n with x := nx, y := ny } else n) := hmem
    obtain ⟨m, hm, rfl⟩ := List.mem_map.mp hmem'
    split <;> exact hn m hm
  | transform id scaleX =>
    simp only [opFn, handleTransform]
    split
    next => exact ⟨hn, hc, hh⟩
    next =>
      split
      · exact ⟨hn, le_max_left 5 _, hh⟩
      · exact ⟨hn, hc, hh⟩
  | transformEnd id nx ny sx sy w ht =>
    simp only [opFn, handleTransformEnd]
    split
    next => exact ⟨hn, hc, hh⟩
    next =>
      refine ⟨?_, hc, hh⟩
      intro n hmem
      have hmem' : n ∈ s.textNodes.map (fun n =>
          if n.id = id then
            { n with x := nx, y := ny, fontSize := max 5 (n.fontSize * sx),
                     width := some (w * sx), height := some (ht * sy) }
          else n) := hmem
      obtain ⟨m, hm, rfl⟩ := List.mem_map.mp hmem'
      split
      · exact le_max_left 5 _
      · exact hn m hm
  | dblClick id =>
    simp only [opFn, handleTextDoubleClick]
    split
    next => exact ⟨hn, hc, hh⟩
    next =>
      split
      next => exact ⟨hn, hc, hh⟩
      next node hfind =>
        refine ⟨?_, hn node (List.mem_of_find?_eq_some hfind), hh⟩
        intro n hmem
        have hmem' : n ∈ s.textNodes.map (fun n =>
            if n.id = id then { n with isEditing := true }
            else { n with isEditing := false }) := hmem
        obtain ⟨m, hm, rfl⟩ := List.mem_map.mp hmem'
        split <;> exact hn m hm
  | blur v =>
    simp only [opFn, handleInputBlur]
    split
    next => exact ⟨hn, hc, hh⟩
    next sel hsel =>
      refine ⟨?_, hc, hh⟩
      intro n hmem
      obtain ⟨m, hm, rfl⟩ := List.mem_map.mp hmem
      split
      · exact hc
      · exact hn m hm
  | fontSize size =>
    have hsz : (10 : Rat) ≤ size ∧ size ≤ 72 := by
      simp only [legalOpB, Bool.and_eq_true, decide_eq_true_eq] at hleg
      exact hleg
    have h5 : (5 : Rat) ≤ size := le_trans (by norm_num) hsz.1
    simp only [opFn, handleFontSizeChange]
    split
    next => exact ⟨hn, h5, hh⟩
    next sel hsel =>
      refine ⟨?_, h5, hh⟩
      intro n hmem
      obtain ⟨m, hm, rfl⟩ := List.mem_map.mp hmem
      split
      · exact h5
      · exact hn m hm
  | color c =>
    simp only [opFn, handleColorChange]
    split
    next => exact ⟨hn, hc, hh⟩
    next sel hsel =>
      refine ⟨?_, hc, hh⟩
      intro n hmem
      obtain ⟨m, hm, rfl⟩ := List.mem_map.mp hmem
      split <;> exact hn m hm
  | add id =>
    refine ⟨?_, hc, hh⟩
    intro n hmem
    have hmem' : n ∈ s.textNodes ++
        [{ id := id, x := 50, y := 50, text := "Double click to edit",
           fontSize := s.currentFontSize, fontColor := s.currentColor,
           width := none, height := none, isEditing := false }] := hmem
    rcases List.mem_append.mp hmem' with hm | hm
    · exact hn n hm
    · rw [List.mem_singleton.mp hm]
      exact hc
  | undoOp =>
    simp only [opFn, undo]
    split
    · refine ⟨?_, hc, hh⟩
      exact getD_hist (fun e => ∀ n ∈ e, 5 ≤ n.fontSize) s _ hh
        (by intro n hn'; exact absurd hn' (List.not_mem_nil n))
    · exact ⟨hn, hc, hh⟩
  | redoOp =>
    simp only [opFn, redo]
    split
    · refine ⟨?_, hc, hh⟩
      exact getD_hist (fun e => ∀ n ∈ e, 5 ≤ n.fontSize) s _ hh
        (by intro n hn'; exact absurd hn' (List.not_mem_nil n))
    · exact ⟨hn, hc, hh⟩
  | deleteOp =>
    simp only [opFn, deleteSelected]
    split
    next => exact ⟨hn, hc, hh⟩
    next sel hsel =>
      refine ⟨?_, hc, hh⟩
      intro n hmem
      exact hn n (List.mem_of_mem_filter hmem)

theorem fsInv_applyOp (op : Op) (s : EditorState) (hleg : legalOpB s op = true)
    (h : fsInv s) : fsInv (applyOp op s) := by
  obtain ⟨h1, h2, h3⟩ := fsInv_opFn op s hleg h
  refine ⟨?_, ?_, recordStep_histAll _ _ h1 h3⟩
  · show ∀ n ∈ (recordStep (opFn op s)).textNodes, 5 ≤ n.fontSize
    rw [recordStep_textNodes]
    exact h1
  · show 5 ≤ (recordStep (opFn op s)).currentFontSize
    rw [recordStep_currentFontSize]
    exact h2

theorem fsInv_run (s : EditorState) (ops : List Op)
    (hleg : legalTraceB s ops = true) (h : fsInv s) : fsInv (run s ops) := by
  induction ops generalizing s with
  | nil => exact h
  | cons op rest ih =>
    simp only [legalTraceB, Bool.and_eq_true] at hleg
    exact ih _ hleg.2 (fsInv_applyOp op s hleg.1 h)

/-- The default node created by `addTextNode` at mount time. -/
def mkNode (id : String) : TextNode :=
  { id := id, x := 50, y := 50, text := "Double click to edit", fontSize := 20,
    fontColor := "#000000", width := none, height := none, isEditing := false }

theorem init_eq (id0 : String) : init id0 =
    { textNodes := [mkNode id0], selectedId := some id0, editText := "",
      currentColor := "#000000", currentFontSize := 20,
      history := [[mkNode id0]], historyIndex := 0, isDragging := false } := rfl

theorem fsInv_init (id0 : String) : fsInv (init id0) := by
  rw [init_eq]
  refine ⟨?_, by norm_num, ?_⟩
  · intro n hn
    rw [List.mem_singleton.mp hn]
    show (5 : Rat) ≤ 20
    norm_num
  · intro e he n hn
    have he' : e = [mkNode id0] := List.mem_singleton.mp he
    rw [he'] at hn
    rw [List.mem_singleton.mp hn]
    show (5 : Rat) ≤ 20
    norm_num

/-- Claim C1: along any legal trace of settled operations from the initial state,
every object's font size stays at least 5 after every operation (legality
only constrains the operations' external inputs as the UI wires them: clicked
ids come from rendered nodes and the font-size slider delivers values in
10..72). -/
theorem fontSize_ge_five (id0 : String) (ops : List Op)
    (hleg : legalTraceB (init id0) ops = true) :
    ∀ n ∈ (run (init id0) ops).textNodes, 5 ≤ n.fontSize :=
  (fsInv_run (init id0) ops hleg (fsInv_init id0)).1

/-! ## The selection invariant (C2, `part_000` variant) -/

/-- C2's invariant: a non-null selection references an id of the live list. -/
def selInv (s : EditorState) : Prop :=
  ∀ i, s.selectedId = some i → i ∈ ids s.textNodes

theorem selInv_opFn (op : Op) (s : EditorState) (hleg : legalOpB s op = true)
    (h : selInv s) : selInv (opFn op s) := by
  cases op with
  | clickEmpty =>
    simp only [opFn, handleStageClickEmpty]
    split
    · exact h
    · intro i hi
      exact Option.noConfusion hi
  | clickNode id =>
    have hid : id ∈ ids s.textNodes := by
      simp only [legalOpB, decide_eq_true_eq] at hleg
      exact hleg
    simp only [opFn, handleStageClickNode]
    split
    · exact h
    · split <;>
        (intro i hi
         have hi' : some id = some i := hi
         injection hi' with hi''
         rw [← hi'']
         exact hid)
  | dragStart => exact h
  | dragEnd id nx ny =>
    intro i hi
    have hi' : s.selectedId = some i := hi
    show i ∈ ids (s.textNodes.map (fun n =>
      if n.id = id then { n with x := nx, y := ny } else n))
    rw [ids_map_of_id_eq _ _ (by intro n; split <;> rfl)]
    exact h i hi'
  | transform id scaleX =>
    simp only [opFn, handleTransform]
    split
    next => exact h
    next =>
      split
      · exact h
      · exact h
  | transformEnd id nx ny sx sy w ht =>
    simp only [opFn, handleTransformEnd]
    split
    next => exact h
    next =>
      intro i hi
      have hi' : s.selectedId = some i := hi
      show i ∈ ids (s.textNodes.map (fun n =>
        if n.id = id then
          { n with x := nx, y := ny, fontSize := max 5 (n.fontSize * sx),
                   width := some (w * sx), height := some (ht * sy) }
        else n))
      rw [ids_map_of_id_eq _ _ (by intro n; split <;> rfl)]
      exact h i hi'
  | dblClick id =>
    simp only [opFn, handleTextDoubleClick]
    split
    next => exact h
    next =>
      split
      next => exact h
      next node hfind =>
        intro i hi
        have hi' : some id = some i := hi
        injection hi' with hi''
        rw [← hi'']
        show id ∈ ids (s.textNodes.map (fun n =>
          if n.id = id then { n with isEditing := true }
          else { n with isEditing := false }))
        rw [ids_map_of_id_eq _ _ (by intro n; split <;> rfl)]
        have hpred := List.find?_some hfind
        have hnid : node.id = id := by simpa using hpred
        rw [← hnid]
        exact List.mem_map_of_mem TextNode.id (List.mem_of_find?_eq_some hfind)
  | blur v =>
    simp only [opFn, handleInputBlur]
    split
    next => exact h
    next sel hsel =>
      intro i hi
      have hi' : s.selectedId = some i := hi
      show i ∈ ids (s.textNodes.map _)
      rw [ids_map_of_id_eq _ _ (by intro n; split <;> rfl)]
      exact h i hi'
  | fontSize size =>
    simp only [opFn, handleFontSizeChange]
    split
    next => exact h
    next sel hsel =>
      intro i hi
      have hi' : s.selectedId = some i := hi
      show i ∈ ids (s.textNodes.map _)
      rw [ids_map_of_id_eq _ _ (by intro n; split <;> rfl)]
      exact h i hi'
  | color c =>
    simp only [opFn, handleColorChange]
    split
    next => exact h
    next sel hsel =>
      intro i hi
      have hi' : s.selectedId = some i := hi
      show i ∈ ids (s.textNodes.map _)
      rw [ids_map_of_id_eq _ _ (by intro n; split <;> rfl)]
      exact h i hi'
  | add id =>
    intro i hi
    have hi' : some id = some i := hi
    injection hi' with hi''
    rw [← hi'']
    show id ∈ ids (s.textNodes ++
      [{ id := id, x := 50, y := 50, text := "Double click to edit",
         fontSize := s.currentFontSize, fontColor := s.currentColor,
         width := none, height := none, isEditing := false }])
    unfold ids
    rw [List.map_append]
    exact List.mem_append_right _ (by simp)
  | undoOp =>
    simp only [opFn, undo]
    split
    · intro i hi
      exact Option.noConfusion hi
    · exact h
  | redoOp =>
    simp only [opFn, redo]
    split
    · intro i hi
      exact Option.noConfusion hi
    · exact h
  | deleteOp =>
    simp only [opFn, deleteSelected]
    split
    next => exact h
    next sel hsel =>
      intro i hi
      exact Option.noConfusion hi

theorem selInv_applyOp (op : Op) (s : EditorState) (hleg : legalOpB s op = true)
    (h : selInv s) : selInv (applyOp op s) := by
  intro i hi
  have hi' : (opFn op s).selectedId = some i := by
    rw [← recordStep_selectedId (opFn op s)]
    exact hi
  have := selInv_opFn op s hleg h i hi'
  show i ∈ ids (recordStep (opFn op s)).textNodes
  rw [recordStep_textNodes]
  exact this

theorem selInv_run (s : EditorState) (ops : List Op)
    (hleg : legalTraceB s ops = true) (h : selInv s) : selInv (run s ops) := by
  induction ops generalizing s with
  | nil => exact h
  | cons op rest ih =>
    simp only [legalTraceB, Bool.and_eq_true] at hleg
    exact ih _ hleg.2 (selInv_applyOp op s hleg.1 h)

theorem selInv_init (id0 : String) : selInv (init id0) := by
  rw [init_eq]
  intro i hi
  have hi' : some id0 = some i := hi
  injection hi' with hi''
  rw [← hi'']
  simp [ids, mkNode]

/-- Claim C2 (amended, `part_000` variant): along any legal trace, the selection is
always either null or the id of an object in the live list. -/
theorem selectedId_present (id0 : String) (ops : List Op)
    (hleg : legalTraceB (init id0) ops = true) :
    ∀ i, (run (init id0) ops).selectedId = some i →
      i ∈ ids (run (init id0) ops).textNodes :=
  selInv_run (init id0) ops hleg (selInv_init id0)

/-! ## Unique ids and the at-most-one-editing invariant (C5, C8) -/

/-- A well-formed node list: pairwise-distinct ids and at most one node in
editing state. -/
def NodesOk (l : List TextNode) : Prop :=
  (ids l).Nodup ∧ countEditing l ≤ 1

/-- The inductive invariant for C5 and C8: the live list and every history
entry are well-formed. -/
def neInv (s : EditorState) : Prop :=
  NodesOk s.textNodes ∧ ∀ e ∈ s.history, NodesOk e

theorem NodesOk_nil : NodesOk [] := by
  constructor
  · exact List.nodup_nil
  · exact Nat.zero_le 1

theorem neInv_opFn (op : Op) (s : EditorState) (hfresh : freshOpB s op = true)
    (h : neInv s) : neInv (opFn op s) := by
  obtain ⟨⟨hnd, hce⟩, hh⟩ := h
  cases op with
  | clickEmpty =>
    simp only [opFn, handleStageClickEmpty]
    split <;> exact ⟨⟨hnd, hce⟩, hh⟩
  | clickNode id =>
    simp only [opFn, handleStageClickNode]
    split
    · exact ⟨⟨hnd, hce⟩, hh⟩
    · split <;> exact ⟨⟨hnd, hce⟩, hh⟩
  | dragStart => exact ⟨⟨hnd, hce⟩, hh⟩
  | dragEnd id nx ny =>
    refine ⟨⟨?_, ?_⟩, hh⟩
    · show (ids (s.textNodes.map _)).Nodup
      rw [ids_map_of_id_eq _ _ (by intro n; split <;> rfl)]
      exact hnd
    · show countEditing (s.textNodes.map _) ≤ 1
      rw [countEditing_map_eq _ _ (by intro n; split <;> rfl)]
      exact hce
  | transform id scaleX =>
    simp only [opFn, handleTransform]
    split
    next => exact ⟨⟨hnd, hce⟩, hh⟩
    next => split <;> exact ⟨⟨hnd, hce⟩, hh⟩
  | transformEnd id nx ny sx sy w ht =>
    simp only [opFn, handleTransformEnd]
    split
    next => exact ⟨⟨hnd, hce⟩, hh⟩
    next =>
      refine ⟨⟨?_, ?_⟩, hh⟩
      · show (ids (s.textNodes.map _)).Nodup
        rw [ids_map_of_id_eq _ _ (by intro n; split <;> rfl)]
        exact hnd
      · show countEditing (s.textNodes.map _) ≤ 1
        rw [countEditing_map_eq _ _ (by intro n; split <;> rfl)]
        exact hce
  | dblClick id =>
    simp only [opFn, handleTextDoubleClick]
    split
    next => exact ⟨⟨hnd, hce⟩, hh⟩
    next =>
      split
      next => exact ⟨⟨hnd, hce⟩, hh⟩
      next node hfind =>
        refine ⟨⟨?_, ?_⟩, hh⟩
        · show (ids (s.textNodes.map _)).Nodup
          rw [ids_map_of_id_eq _ _ (by intro n; split <;> rfl)]
          exact hnd
        · show countEditing (s.textNodes.map _) ≤ 1
          rw [countEditing_dblClick_map]
          exact countP_id_le_one _ _ hnd
  | blur v =>
    simp only [opFn, handleInputBlur]
    split
    next => exact ⟨⟨hnd, hce⟩, hh⟩
    next sel hsel =>
      refine ⟨⟨?_, ?_⟩, hh⟩
      · show (ids (s.textNodes.map _)).Nodup
        rw [ids_map_of_id_eq _ _ (by intro n; split <;> rfl)]
        exact hnd
      · show countEditing (s.textNodes.map _) ≤ 1
        refine le_trans (countEditing_map_le _ _ ?_) hce
        intro n hn
        by_cases hid : n.id = sel
        · rw [if_pos hid] at hn
          exact absurd hn (by simp)
        · rwa [if_neg hid] at hn
  | fontSize size =>
    simp only [opFn, handleFontSizeChange]
    split
    next => exact ⟨⟨hnd, hce⟩, hh⟩
    next sel hsel =>
      refine ⟨⟨?_, ?_⟩, hh⟩
      · show (ids (s.textNodes.map _)).Nodup
        rw [ids_map_of_id_eq _ _ (by intro n; split <;> rfl)]
        exact hnd
      · show countEditing (s.textNodes.map _) ≤ 1
        rw [countEditing_map_eq _ _ (by intro n; split <;> rfl)]
        exact hce
  | color c =>
    simp only [opFn, handleColorChange]
    split
    next => exact ⟨⟨hnd, hce⟩, hh⟩
    next sel hsel =>
      refine ⟨⟨?_, ?_⟩, hh⟩
      · show (ids (s.textNodes.map _)).Nodup
        rw [ids_map_of_id_eq _ _ (by intro n; split <;> rfl)]
        exact hnd
      · show countEditing (s.textNodes.map _) ≤ 1
        rw [countEditing_map_eq _ _ (by intro n; split <;> rfl)]
        exact hce
  | add id =>
    have hid : id ∉ ids s.textNodes := by
      simp only [freshOpB, Bool.not_eq_true', decide_eq_false_iff_not] at hfresh
      exact hfresh
    refine ⟨⟨?_, ?_⟩, hh⟩
    · show (ids (s.textNodes ++ [_])).Nodup
      simp only [ids, List.map_append, List.map_cons, List.map_nil]
      rw [(List.perm_append_singleton _ _).nodup_iff]
      exact List.nodup_cons.mpr ⟨hid, hnd⟩
    · show countEditing (s.textNodes ++ [_]) ≤ 1
      unfold countEditing
      rw [List.countP_append]
      simpa using hce
  | undoOp =>
    simp only [opFn, undo]
    split
    · exact ⟨getD_hist NodesOk s _ hh NodesOk_nil, hh⟩
    · exact ⟨⟨hnd, hce⟩, hh⟩
  | redoOp =>
    simp only [opFn, redo]
    split
    · exact ⟨getD_hist NodesOk s _ hh NodesOk_nil, hh⟩
    · exact ⟨⟨hnd, hce⟩, hh⟩
  | deleteOp =>
    simp only [opFn, deleteSelected]
    split
    next => exact ⟨⟨hnd, hce⟩, hh⟩
    next sel hsel =>
      refine ⟨⟨?_, ?_⟩, hh⟩
      · show (ids (s.textNodes.filter _)).Nodup
        exact List.Nodup.sublist ((List.filter_sublist _).map TextNode.id) hnd
      · show countEditing (s.textNodes.filter _) ≤ 1
        exact le_trans (List.Sublist.countP_le _ (List.filter_sublist _)) hce

theorem neInv_applyOp (op : Op) (s : EditorState) (hfresh : freshOpB s op = true)
    (h : neInv s) : neInv (applyOp op s) := by
  obtain ⟨h1, h2⟩ := neInv_opFn op s hfresh h
  refine ⟨?_, recordStep_histAll NodesOk _ h1 h2⟩
  show NodesOk (recordStep (opFn op s)).textNodes
  rw [recordStep_textNodes]
  exact h1

theorem neInv_run (s : EditorState) (ops : List Op)
    (hfresh : freshTraceB s ops = true) (h : neInv s) : neInv (run s ops) := by
  induction ops generalizing s with
  | nil => exact h
  | cons op rest ih =>
    simp only [freshTraceB, Bool.and_eq_true] at hfresh
    exact ih _ hfresh.2 (neInv_applyOp op s hfresh.1 h)

theorem neInv_init (id0 : String) : neInv (init id0) := by
  rw [init_eq]
  refine ⟨⟨?_, ?_⟩, ?_⟩
  · simp [ids, mkNode]
  · simp [countEditing, mkNode]
  · intro e he
    rw [List.mem_singleton.mp he]
    constructor
    · simp [ids, mkNode]
    · simp [countEditing, mkNode]

/-! ## Claim-level theorems for C5, C7, C8, C10 -/

/-- Claim C5 (amended, `part_000` variant): along any trace whose adds get
fresh timestamp ids, at most one object is ever in editing state; and the
double-click handler, when it takes effect (no in-flight drag, target found),
sets `isEditing` on the target and clears it on every other object.  (In the
`App.tsx` variant the handler leaves other objects' flags untouched.) -/
theorem editing_at_most_one :
    (∀ id0 ops, freshTraceB (init id0) ops = true →
        countEditing (run (init id0) ops).textNodes ≤ 1)
    ∧ (∀ s id node, s.isDragging = false →
        s.textNodes.find? (fun n => n.id == id) = some node →
        ∀ n ∈ (handleTextDoubleClick id s).textNodes,
          (n.id = id → n.isEditing = true) ∧ (n.id ≠ id → n.isEditing = false)) := by
  constructor
  · intro id0 ops hfresh
    exact (neInv_run (init id0) ops hfresh (neInv_init id0)).1.2
  · intro s id node hdrag hfind n hn
    have hres : (handleTextDoubleClick id s).textNodes
        = s.textNodes.map (fun n =>
            if n.id = id then { n with isEditing := true }
            else { n with isEditing := false }) := by
      simp only [handleTextDoubleClick, hdrag, Bool.false_eq_true, if_false, hfind]
    rw [hres] at hn
    obtain ⟨m, hm, rfl⟩ := List.mem_map.mp hn
    by_cases hmid : m.id = id
    · simp [hmid]
    · simp [hmid]

/-- Claim C8 (amended): along any trace whose `add` operations receive fresh
ids — true whenever the `Date.now()` timestamps of successive adds differ
from all live ids — the ids of the live object list are pairwise distinct.
(Two adds in the same millisecond receive the same timestamp id and break
uniqueness.) -/
theorem ids_nodup_of_fresh (id0 : String) (ops : List Op)
    (hfresh : freshTraceB (init id0) ops = true) :
    (ids (run (init id0) ops).textNodes).Nodup :=
  (neInv_run (init id0) ops hfresh (neInv_init id0)).1.1

/-- Claim C7: when an object is selected and the staged edit buffer agrees
with the overlay input's value (the `onChange` handler keeps them in sync),
the blur/Enter handler writes exactly that text — the empty string included —
together with the global current style into the selected object and clears
its editing flag; this holds in both variants. -/
theorem commitEdit_writes_text (s : EditorState) (i newText : String)
    (hsel : s.selectedId = some i) (hbuf : s.editText = newText) :
    (∀ n ∈ (applyOp (.blur (some newText)) s).textNodes, n.id = i →
      n.text = newText ∧ n.fontSize = s.currentFontSize ∧
      n.fontColor = s.currentColor ∧ n.isEditing = false)
    ∧ (∀ n ∈ (applyOpApp (.blur (some newText)) s).textNodes, n.id = i →
      n.text = newText ∧ n.fontSize = s.currentFontSize ∧
      n.fontColor = s.currentColor ∧ n.isEditing = false) := by
  have hupd : (if newText = "" then s.editText else newText) = newText := by
    split
    · exact hbuf
    · rfl
  constructor
  · intro n hn hnid
    have hn' : n ∈ (handleInputBlur (some newText) s).textNodes := by
      have heq : (applyOp (.blur (some newText)) s).textNodes
          = (handleInputBlur (some newText) s).textNodes :=
        recordStep_textNodes _
      rw [heq] at hn
      exact hn
    simp only [handleInputBlur, hsel] at hn'
    obtain ⟨m, hm, rfl⟩ := List.mem_map.mp hn'
    by_cases hmid : m.id = i
    · rw [if_pos hmid]
      exact ⟨hupd, rfl, rfl, rfl⟩
    · rw [if_neg hmid] at hnid
      exact absurd hnid hmid
  · intro n hn hnid
    have hn' : n ∈ (handleInputBlurApp s).textNodes := by
      have heq : (applyOpApp (.blur (some newText)) s).textNodes
          = (handleInputBlurApp s).textNodes :=
        recordStep_textNodes _
      rw [heq] at hn
      exact hn
    simp only [handleInputBlurApp, hsel] at hn'
    obtain ⟨m, hm, rfl⟩ := List.mem_map.mp hn'
    by_cases hmid : m.id = i
    · rw [if_pos hmid]
      exact ⟨hbuf, rfl, rfl, rfl⟩
    · rw [if_neg hmid] at hnid
      exact absurd hnid hmid

/-- Claim C10: when the blur/Enter handler fires with no selection, the state
is left completely unchanged in both variants — in particular an object in
editing state stays in editing state. -/
theorem blur_noop_when_unselected (s : EditorState) (v : Option String)
    (h : s.selectedId = none) :
    handleInputBlur v s = s ∧ handleInputBlurApp s = s := by
  constructor
  · simp [handleInputBlur, h]
  · simp [handleInputBlurApp, h]

/-! ## Counterexamples (behaviour of the `App.tsx` variant, and timestamp
collisions) -/

/-- Counterexample to C2 as stated: in the `App.tsx` variant (whose `undo`
does not clear the selection), adding a second object and undoing leaves
`selectedId = "t2"` while the restored list only contains `"t1"`. -/
theorem undo_app_leaves_dangling_selection :
    (runApp (init "t1") [.add "t2", .undoOp]).selectedId = some "t2" ∧
    "t2" ∉ ids (runApp (init "t1") [.add "t2", .undoOp]).textNodes := by
  decide

/-- Counterexample to C5 as stated: in the `App.tsx` variant the double-click
handler marks only the target as editing, so double-clicking two objects in
turn leaves both in editing state. -/
theorem dblClick_app_keeps_others_editing :
    countEditing (runApp (init "t1")
      [.add "t2", .dblClick "t1", .dblClick "t2"]).textNodes = 2 := by
  decide

/-- Counterexample to C6 as stated: in the `App.tsx` variant, `undo` installs
a historical snapshot (the cursor was strictly past 0) yet the selection is
not cleared. -/
theorem undo_app_keeps_selection :
    0 < (runApp (init "a") [.add "b"]).historyIndex ∧
    (runApp (init "a") [.add "b", .undoOp]).selectedId ≠ none := by
  decide

/-- Counterexample to C8 as stated: two adds receiving the same
`Date.now()` timestamp string (two clicks in the same millisecond) produce
duplicate ids. -/
theorem duplicate_timestamp_duplicate_ids :
    ¬ (ids (run (init "0") [.add "1", .add "1"]).textNodes).Nodup := by
  decide

/-! ## Witnesses -/

/-- Concrete trace used by the C1 witness. -/
def opsW1 : List Op :=
  [.add "t2", .fontSize 12, .transformEnd "t2" 10 10 2 2 80 30,
   .blur (some "hi"), .deleteOp]

/-- Witness for C1 at a concrete legal trace. -/
theorem fontSize_ge_five_check :
    legalTraceB (init "t1") opsW1 = true ∧
    ∀ n ∈ (run (init "t1") opsW1).textNodes, 5 ≤ n.fontSize :=
  ⟨by decide, fontSize_ge_five "t1" opsW1 (by decide)⟩

/-- Concrete trace used by the C2 witness. -/
def opsW2 : List Op :=
  [.add "t2", .clickNode "t1", .dblClick "t2", .undoOp, .redoOp]

/-- Witness for the amended C2 at a concrete legal trace. -/
theorem selectedId_present_check :
    legalTraceB (init "t1") opsW2 = true ∧
    ∀ i, (run (init "t1") opsW2).selectedId = some i →
      i ∈ ids (run (init "t1") opsW2).textNodes :=
  ⟨by decide, selectedId_present "t1" opsW2 (by decide)⟩

/-- Witness for C3 at a concrete settled state with the cursor at 1. -/
theorem undo_redo_roundtrip_check :
    0 < (run (init "t1") [.add "t2"]).historyIndex ∧
    (applyOp .redoOp (applyOp .undoOp (run (init "t1") [.add "t2"]))).textNodes
      = (run (init "t1") [.add "t2"]).textNodes :=
  ⟨by decide,
   (undo_redo_roundtrip (run (init "t1") [.add "t2"])
     ⟨by decide, by decide, by decide⟩ (by decide)).1⟩

/-- Concrete pre-record state used by the C4 witness: cursor at 0 inside a
three-entry log, live list differing from the entry at the cursor. -/
def stateW4 : EditorState :=
  { textNodes := [mkNode "d"], selectedId := none, editText := "",
    currentColor := "#000000", currentFontSize := 20,
    history := [[mkNode "a"], [mkNode "b"], [mkNode "c"]], historyIndex := 0,
    isDragging := false }

/-- Witness for C4 at `stateW4`. -/
theorem record_truncates_check :
    (recordStep stateW4).history
        = stateW4.history.take (stateW4.historyIndex + 1).toNat ++
          [stateW4.textNodes]
      ∧ (recordStep stateW4).historyIndex = stateW4.historyIndex + 1
      ∧ applyOp .redoOp (recordStep stateW4) = recordStep stateW4 :=
  record_truncates stateW4 (by decide) (by decide) (by decide)

/-- Concrete trace used by the C5 witness. -/
def opsW5 : List Op := [.add "t2", .dblClick "t2", .blur (some "x")]

/-- Concrete state used by the C5 witness's double-click conjunct. -/
def stateW5 : EditorState :=
  { textNodes := [mkNode "t1", mkNode "t2"], selectedId := some "t1",
    editText := "", currentColor := "#000000", currentFontSize := 20,
    history := [[mkNode "t1", mkNode "t2"]], historyIndex := 0,
    isDragging := false }

/-- Witness for the amended C5: a concrete fresh trace keeps the editing
count at most one, and a concrete double-click clears the other object. -/
theorem editing_at_most_one_check :
    (freshTraceB (init "t1") opsW5 = true ∧
      countEditing (run (init "t1") opsW5).textNodes ≤ 1)
    ∧ ∀ n ∈ (handleTextDoubleClick "t2" stateW5).textNodes,
        (n.id = "t2" → n.isEditing = true) ∧ (n.id ≠ "t2" → n.isEditing = false) :=
  ⟨⟨by decide, editing_at_most_one.1 "t1" opsW5 (by decide)⟩,
   editing_at_most_one.2 stateW5 "t2" (mkNode "t2") rfl (by decide)⟩

/-- Witness for the amended C6 at a concrete settled state with the cursor
strictly inside the log. -/
theorem undo_redo_clear_selection_check :
    (applyOp .undoOp (run (init "a") [.add "b", .add "c", .undoOp])).selectedId
        = none
    ∧ (applyOp .redoOp (run (init "a") [.add "b", .add "c", .undoOp])).selectedId
        = none :=
  ⟨(undo_redo_clear_selection (run (init "a") [.add "b", .add "c", .undoOp])).1
     (by decide),
   (undo_redo_clear_selection (run (init "a") [.add "b", .add "c", .undoOp])).2
     (by decide)⟩

/-- Concrete state used by the C7 witness: one selected editing object with
an empty staged buffer. -/
def stateW7 : EditorState :=
  { textNodes := [{ mkNode "t1" with isEditing := true }],
    selectedId := some "t1", editText := "", currentColor := "#ff0000",
    currentFontSize := 11, history := [[mkNode "t1"]], historyIndex := 0,
    isDragging := false }

/-- Witness for C7 at `stateW7` with the empty string as new text. -/
theorem commitEdit_writes_text_check :
    (∀ n ∈ (applyOp (.blur (some "")) stateW7).textNodes, n.id = "t1" →
      n.text = "" ∧ n.fontSize = stateW7.currentFontSize ∧
      n.fontColor = stateW7.currentColor ∧ n.isEditing = false)
    ∧ (∀ n ∈ (applyOpApp (.blur (some "")) stateW7).textNodes, n.id = "t1" →
      n.text = "" ∧ n.fontSize = stateW7.currentFontSize ∧
      n.fontColor = stateW7.currentColor ∧ n.isEditing = false) :=
  commitEdit_writes_text stateW7 "t1" "" rfl rfl

/-- Concrete fresh trace used by the C8 witness. -/
def opsW8 : List Op := [.add "t2", .deleteOp, .add "t3"]

/-- Witness for the amended C8 at a concrete fresh trace. -/
theorem ids_nodup_of_fresh_check :
    freshTraceB (init "t1") opsW8 = true ∧
    (ids (run (init "t1") opsW8).textNodes).Nodup :=
  ⟨by decide, ids_nodup_of_fresh "t1" opsW8 (by decide)⟩

/-- Witness for C9 at the mount state, whose cursor is both at 0 and at the
tail of its one-entry log. -/
theorem undo_redo_noop_at_bounds_check :
    applyOp .undoOp (init "t1") = init "t1" ∧
    applyOp .redoOp (init "t1") = init "t1" :=
  ⟨(undo_redo_noop_at_bounds (init "t1")
      ⟨by decide, by decide, by decide⟩).1 (Or.inl (by decide)),
   (undo_redo_noop_at_bounds (init "t1")
      ⟨by decide, by decide, by decide⟩).2 (by decide)⟩

/-- Concrete state used by the C10 witness: an editing object with no
selection. -/
def stateW10 : EditorState :=
  { textNodes := [{ mkNode "t1" with isEditing := true }], selectedId := none,
    editText := "x", currentColor := "#000000", currentFontSize := 20,
    history := [[mkNode "t1"]], historyIndex := 0, isDragging := false }

/-- Witness for C10 at `stateW10`. -/
theorem blur_noop_when_unselected_check :
    handleInputBlur (some "x") stateW10 = stateW10 ∧
    handleInputBlurApp stateW10 = stateW10 :=
  blur_noop_when_unselected stateW10 (some "x") rfl

end KonvaTextEditor
